import Mathlib

/-!
Verification of the aineko-core node lifecycle and dataset abstraction layer.

This file gives a shallow embedding, in Lean 4, of the parts of the
repository that the specification's claims are about:

* `aineko/datasets/core.py` — the `DatasetError` wrapping discipline of
  `AbstractDataset` / `AbstractAsyncDataset` and `DatasetCreateStatus.done`;
* `aineko/core/node.py` — `PoisonPill`, `AbstractNode.execute`,
  `AbstractNode.run_test`, `AbstractNode.log`, `AbstractNode.setup_test`,
  `AbstractNode.activate_poison_pill`;
* `aineko/core/config_loader.py` — `ConfigLoader.inject_env_vars`.

Python exceptions are modelled with `Except`, machine state by explicit
state passing, wall-clock time by a clock oracle, and unbounded loops by a
fuel parameter (`none` / a dedicated error marks a run that is still
looping when the fuel runs out).  Definitions follow the Python source
statement by statement; file and line references are given in each doc
comment.
-/

set_option maxHeartbeats 1000000

namespace Aineko

/-! ## Definitions: dataset layer (`aineko/datasets/core.py`) -/

/-- Python exception values, as far as the dataset layer distinguishes
them: a `DatasetError` (datasets/core.py line 27) carrying its message and
an optional `__cause__`, or any other exception (collapsed to a
description string). -/
inductive PyExc where
  | datasetError (msg : String) (cause : Option PyExc)
  | otherExc (desc : String)

/-- The six public dataset operations whose wrappers translate errors
(datasets/core.py lines 174-232 and 345-403). -/
inductive DatasetOp where
  | readOp
  | writeOp
  | createOp
  | deleteOp
  | existsOp
  | initOp
deriving DecidableEq

/-- Failure message built by each public wrapper in datasets/core.py
(`f"Failed to read dataset {self.name}."` and so on; the `exists` wrapper
uses the distinct phrasing of line 221). -/
def opFailureMessage : DatasetOp → String → String
  | .readOp, n => "Failed to read dataset " ++ n ++ "."
  | .writeOp, n => "Failed to write dataset " ++ n ++ "."
  | .createOp, n => "Failed to create dataset " ++ n ++ "."
  | .deleteOp, n => "Failed to delete dataset " ++ n ++ "."
  | .existsOp, n => "Failed to check if dataset " ++ n ++ " exists."
  | .initOp, n => "Failed to initialize dataset " ++ n ++ "."

/-- The `try/except` pattern of every public `AbstractDataset` wrapper
(datasets/core.py lines 174-232): the result of the backend-specific
private call is returned unchanged; a `DatasetError` is re-raised as is
(`except DatasetError: raise`); any other exception `e` is replaced by
`DatasetError(message) from e`. -/
def wrapDatasetOp {α : Type} (op : DatasetOp) (n : String)
    (r : Except PyExc α) : Except PyExc α :=
  match r with
  | .ok v => .ok v
  | .error (.datasetError m c) => .error (.datasetError m c)
  | .error e => .error (.datasetError (opFailureMessage op n) (some e))

/-- The identical `try/except` pattern of every public
`AbstractAsyncDataset` wrapper (datasets/core.py lines 345-403); the
hierarchy is structurally separate from the synchronous one, so it gets
its own definition. -/
def wrapAsyncDatasetOp {α : Type} (op : DatasetOp) (n : String)
    (r : Except PyExc α) : Except PyExc α :=
  match r with
  | .ok v => .ok v
  | .error (.datasetError m c) => .error (.datasetError m c)
  | .error e => .error (.datasetError (opFailureMessage op n) (some e))

/-- `DatasetCreateStatus` (datasets/core.py lines 48-77).  A future or a
status object is represented by the boolean its `done()` method returns. -/
structure DatasetCreateStatus where
  dataset_name : String
  kafka_topic_to_future : Option (List (String × Bool))
  status_list : Option (List Bool)
deriving DecidableEq

/-- Python truthiness of an optional list: `None` and the empty list are
falsy, a non-empty list is truthy. -/
def truthyOptList {α : Type} : Option (List α) → Bool
  | none => false
  | some l => !l.isEmpty

/-- `DatasetCreateStatus.done` (datasets/core.py lines 79-96), statement
by statement: `if not any([self.kafka_topic_to_future, self.status_list]):
return True`, then `if self.kafka_topic_to_future: return all(...)`, then
`if self.status_list: return all(...)`.  Python falls off the end of the
function (returning `None`) if no branch fires, hence the `Option Bool`
result; the final `none` branch is unreachable. -/
def DatasetCreateStatus.done (s : DatasetCreateStatus) : Option Bool :=
  if !(truthyOptList s.kafka_topic_to_future || truthyOptList s.status_list) then
    some true
  else if truthyOptList s.kafka_topic_to_future then
    some ((s.kafka_topic_to_future.getD []).all (fun p => p.2))
  else if truthyOptList s.status_list then
    some ((s.status_list.getD []).all (fun b => b))
  else
    none

/-- Claimed behaviour of `done()`, written from the spec's words: true
exactly when the tracked set is empty or every tracked operation (every
future in the mapping and every status in the list) reports itself
complete.  Used to compare the claim against the source definition. -/
def doneSpecClaim (s : DatasetCreateStatus) : Bool :=
  ((s.kafka_topic_to_future.getD []).isEmpty && (s.status_list.getD []).isEmpty) ||
  ((s.kafka_topic_to_future.getD []).all (fun p => p.2) &&
    (s.status_list.getD []).all (fun b => b))

/-- Concrete status with one completed topic future and one incomplete
status object, for settling the `done()` claim. -/
def mixedCreateStatus : DatasetCreateStatus :=
  ⟨"ds", some [("topic", true)], some [false]⟩

/-! ## Definitions: poison pill (`aineko/core/node.py` lines 38-55, 281-284) -/

/-- `PoisonPill` (node.py lines 38-55): a single boolean, initialized
unactivated. -/
structure PoisonPill where
  state : Bool
deriving DecidableEq

/-- `PoisonPill.__init__` (node.py lines 45-47). -/
def PoisonPill.init : PoisonPill := ⟨false⟩

/-- `PoisonPill.activate` (node.py lines 49-51): sets `state` to `True`. -/
def PoisonPill.activate (p : PoisonPill) : PoisonPill := { p with state := true }

/-- `PoisonPill.get_state` (node.py lines 53-55): returns the state,
leaving it unchanged. -/
def PoisonPill.getState (p : PoisonPill) : Bool := p.state

/-- The operations the `PoisonPill` class exposes on the shared flag. -/
inductive PoisonPillOp where
  | activateOp
  | getStateOp
deriving DecidableEq

/-- Effect of each `PoisonPill` operation on the flag's state
(`get_state` reads without writing). -/
def applyPoisonPillOp : PoisonPillOp → PoisonPill → PoisonPill
  | .activateOp, p => p.activate
  | .getStateOp, p => p

/-- `AbstractNode.activate_poison_pill` (node.py lines 281-284): if the
node holds a flag reference (`if self.poison_pill:`), activate it through
the actor handle; a node constructed without one (`poison_pill=None`)
does nothing.  The serialized remote call is modelled as a direct state
update on the shared flag. -/
def activatePoisonPill : Option PoisonPill → Option PoisonPill
  | none => none
  | some p => some p.activate

/-! ## Definitions: node execute loop (`aineko/core/node.py` lines 253-279) -/

/-- Python values a user-supplied `_execute` can return, as far as the
loop guard distinguishes them (the declared type is `Optional[bool]`, but
the guard `run_loop is not False` inspects arbitrary objects; a list is
collapsed to its length since only truthiness and identity matter). -/
inductive PyVal where
  | pybool (b : Bool)
  | pynone
  | pyint (n : Int)
  | pystr (s : String)
  | pylist (len : Nat)
deriving DecidableEq

/-- The loop guard of `execute` (node.py line 270): `run_loop is not
False` — the loop continues unless the step returned the `False`
singleton itself.  `None`, `0`, empty strings and empty lists all
continue the loop. -/
def runLoopContinues : PyVal → Bool
  | .pybool false => false
  | _ => true

/-- Python truthiness (falsiness) of a step return value, written from
the spec's words: the claimed stop signal is any "false-like" value —
`False`, `None`, `0`, or an empty collection.  Used to compare the claim
against the source's guard. -/
def pyFalsy : PyVal → Bool
  | .pybool b => !b
  | .pynone => true
  | .pyint n => n == 0
  | .pystr s => s.isEmpty
  | .pylist len => len == 0

/-- Observable lifecycle events of `AbstractNode.execute`
(node.py lines 253-279). -/
inductive ExecEvent where
  | preHookEv
  | stepCall (i : Nat)
  | logLine (msg : String)
  | postHookEv
deriving DecidableEq

/-- The final log message of `execute` (node.py line 278):
`f"Execution loop complete for node: {self.__class__.__name__}"`. -/
def execCompleteMessage (cls : String) : String :=
  "Execution loop complete for node: " ++ cls

/-- The `while run_loop is not False` loop of `execute` (node.py lines
270-276), with the i-th `_execute` return value supplied by the oracle
`results`.  Each iteration emits a `stepCall` event; the loop ends once
an iteration returns the `False` singleton.  `none` marks a run still
looping when the fuel runs out.  Exceptions in `_execute` abort `execute`
(logged then re-raised, lines 274-276); this models the normal path. -/
def executeLoop (results : Nat → PyVal) : Nat → Nat → Option (List ExecEvent)
  | 0, _ => none
  | fuel + 1, i =>
    if runLoopContinues (results i) then
      (executeLoop results fuel (i + 1)).map (fun tr => ExecEvent.stepCall i :: tr)
    else
      some [ExecEvent.stepCall i]

/-- Event trace of `AbstractNode.execute` (node.py lines 253-279) on the
normal path: the pre-loop hook (line 265), then the step loop (lines
270-276), then — in this source order — the final log line (line 278)
and only then the post-loop hook (line 279). -/
def executeTrace (cls : String) (results : Nat → PyVal) (fuel : Nat) :
    Option (List ExecEvent) :=
  (executeLoop results fuel 0).map (fun tr =>
    ExecEvent.preHookEv ::
      (tr ++ [ExecEvent.logLine (execCompleteMessage cls), ExecEvent.postHookEv]))

/-! ## Definitions: test-mode run loop (`aineko/core/node.py` lines 301-341) -/

/-- Test-mode state of a node.  Modelled from the spec: the in-memory
dataset doubles (`FakeDatasetInput` / `FakeDatasetOutput`, from
`aineko/datasets/kafka.py`, which is not part of the sources) hold a
caller-supplied queue of input values and an ordered buffer of produced
values; an input double reports itself `empty` once its queue is
exhausted, and reading from an empty double does not raise.  `inputs`
maps each input dataset name to the remaining queued values, `outputs`
maps each output dataset name to the values produced so far. -/
structure TestState (V : Type) where
  inputs : List (String × List V)
  outputs : List (String × List V)
deriving DecidableEq

/-- The emptiness test of the run_test loop (node.py lines 331-332):
`all(input.empty for input in self.inputs.values())`. -/
def allInputsEmpty {V : Type} (st : TestState V) : Bool :=
  st.inputs.all (fun p => p.2.isEmpty)

/-- The `while run_loop is not False` loop of `run_test` (node.py lines
322-334), one user `_execute` step per iteration (the step function is
abstract: it transforms the test state and returns the loop signal).
After each step: if a runtime budget was given and `time.time() -
start_time < runtime`, the iteration `continue`s straight to the loop
guard; otherwise, if the node has inputs and all input doubles are
empty, `run_loop` is set to `False`.  The guard exits once `run_loop` is
the `False` singleton.  `time.time()` is an oracle `clock` indexed by
iteration; `none` marks a run still looping when the fuel runs out.
Returns the final state and the number of completed iterations. -/
def runTestLoop {V : Type} (step : TestState V → TestState V × Option Bool)
    (clock : Nat → Nat) (runtime : Option Nat) (start : Nat) :
    Nat → Nat → TestState V → Option (TestState V × Nat)
  | 0, _, _ => none
  | fuel + 1, i, st =>
    match runtime with
    | some rt =>
      if clock (i + 1) - start < rt then
        if (step st).2 = some false then some ((step st).1, i + 1)
        else runTestLoop step clock runtime start fuel (i + 1) (step st).1
      else
        if (!(step st).1.inputs.isEmpty && allInputsEmpty (step st).1) then
          some ((step st).1, i + 1)
        else if (step st).2 = some false then some ((step st).1, i + 1)
        else runTestLoop step clock runtime start fuel (i + 1) (step st).1
    | none =>
      if (!(step st).1.inputs.isEmpty && allInputsEmpty (step st).1) then
        some ((step st).1, i + 1)
      else if (step st).2 = some false then some ((step st).1, i + 1)
      else runTestLoop step clock runtime start fuel (i + 1) (step st).1

/-- `AbstractNode.run_test` (node.py lines 301-341): record the start
time, run the pre-loop hook, drive the loop, run the post-loop hook, and
return, per output dataset name, the produced values
(`{dataset_name: output.values for ...}`).  Hooks are abstract state
transformers; `none` marks a run whose loop is still going when the fuel
runs out. -/
def runTest {V : Type} (pre post : TestState V → TestState V)
    (step : TestState V → TestState V × Option Bool)
    (clock : Nat → Nat) (runtime : Option Nat) (fuel : Nat)
    (st0 : TestState V) : Option (List (String × List V)) :=
  match runTestLoop step clock runtime (clock 0) fuel 0 (pre st0) with
  | none => none
  | some (stf, _) => some ((post stf).outputs)

/-- Wall-clock budget condition at iteration `k`, measured from `start`:
holds vacuously when no runtime budget was given. -/
def budgetElapsedFrom (clock : Nat → Nat) (runtime : Option Nat)
    (start k : Nat) : Prop :=
  match runtime with
  | none => True
  | some rt => rt ≤ clock k - start

/-! ## Definitions: config injector (`aineko/core/config_loader.py` lines 154-226) -/

/-- Characters of a candidate placeholder body up to (excluding) the
first `}`, or `none` when no `}` follows — the non-greedy `.*?\}` part
of the pattern `\{\$.*?\}` under `re.DOTALL` (config_loader.py line
209): the body may contain any character, newline included, and stops at
the first closing brace. -/
def takeToBrace : List Char → Option (List Char)
  | [] => none
  | '}' :: _ => some []
  | c :: rest => (takeToBrace rest).map (fun l => c :: l)

/-- Name inside the first match of `re.search(r"\{\$.*?\}", s,
re.DOTALL)` (config_loader.py line 210), i.e. the characters strictly
between the leftmost `{$` that is followed by some `}` and the first
such `}` (`env_var_env_str[2:][:-1]`, line 214).  When the first `{$`
has no closing `}` anywhere after it, no later start position can match
either (a match needs a `}` further right), so the scan reports no
match. -/
def scanFirst : List Char → Option (List Char)
  | '{' :: '$' :: rest =>
    match takeToBrace rest with
    | some name => some name
    | none => none
  | _ :: rest => scanFirst rest
  | [] => none

/-- The full matched substring `{$name}` rebuilt from the name. -/
def placeholderOf (name : List Char) : List Char :=
  '{' :: '$' :: (name ++ ['}'])

/-- Worker for `replaceAll`, structurally recursive on a fuel argument
that bounds the remaining string length (each step consumes at least one
character when the pattern is non-empty, so fuel equal to the string's
length never runs out; the fuel-0 fallback returns the remainder
unchanged and is unreachable from `replaceAll`). -/
def replaceAllGo (pat val : List Char) : Nat → List Char → List Char
  | 0, s => s
  | _ + 1, [] => []
  | fuel + 1, c :: rest =>
    if pat ≠ [] ∧ pat.isPrefixOf (c :: rest) then
      val ++ replaceAllGo pat val fuel ((c :: rest).drop pat.length)
    else
      c :: replaceAllGo pat val fuel rest

/-- Python `str.replace(pat, val)` (config_loader.py lines 221-223):
replaces every non-overlapping occurrence of `pat`, scanning left to
right.  The `pat = []` guard only guards the worker; the pattern passed
by the injector is a `{$...}` match and never empty. -/
def replaceAll (pat val s : List Char) : List Char :=
  replaceAllGo pat val s.length s

/-- The `ValueError` message of config_loader.py lines 217-220:
`"Failed to inject environment variable. {name} was not found."`. -/
def missingVarMessage (name : List Char) : List Char :=
  "Failed to inject environment variable. ".toList ++ name ++
    " was not found.".toList

/-- Failure modes of `inject_env_vars`: the `ValueError` for a missing
environment variable (carrying its message), or Python's
`RecursionError` when the substitute-and-rescan recursion never
reaches a placeholder-free string (modelled by fuel exhaustion).
`invalidRef` marks a dangling heap reference in the in-place mutation
model below — a modeling artifact, unreachable on well-formed stores. -/
inductive InjectError where
  | missingVar (msg : List Char)
  | recursionError
  | invalidRef
deriving DecidableEq

/-- The string branch of `inject_env_vars` (config_loader.py lines
208-224): search for the first `{$NAME}` match; with no match return the
string unchanged; otherwise look `NAME` up in the environment (`env` is
the process environment as a partial map), raise the missing-variable
`ValueError` when it is unset, and else replace every occurrence of the
matched substring and re-scan the result from the start through a
recursive call.  One unit of fuel is one recursive call. -/
def injectStr (env : List Char → Option (List Char)) :
    Nat → List Char → Except InjectError (List Char)
  | 0, _ => .error .recursionError
  | fuel + 1, s =>
    match scanFirst s with
    | none => .ok s
    | some name =>
      match env name with
      | none => .error (.missingVar (missingVarMessage name))
      | some v => injectStr env fuel (replaceAll (placeholderOf name) v s)

/- Parameter trees (`NodeParamTypes = dict | list | str | int | float |
bool | None`, config_loader.py line 17).  Dict entries keep insertion
order, matching Python dict iteration; floats are opaque tokens since
the injector never inspects them. -/
mutual
inductive NodeParams where
  | pdict (entries : EntryList)
  | plist (items : ParamList)
  | pstr (s : List Char)
  | pint (n : Int)
  | pfloat (x : Nat)
  | pbool (b : Bool)
  | pnone

inductive EntryList where
  | nil
  | cons (key : String) (value : NodeParams) (rest : EntryList)

inductive ParamList where
  | nil
  | cons (val : NodeParams) (rest : ParamList)
end

/- `ConfigLoader.inject_env_vars` (config_loader.py lines 154-226) as a
value transformer: dicts and lists recurse into every value in order
(`for k, v in list(node_params.items())`, `for i, v in enumerate(...)`),
strings go through the search/substitute/re-scan branch, and all other
scalars pass through unchanged.  A raised exception aborts the whole
walk, mirroring Python exception propagation.  The in-place mutation the
Python code performs on dicts and lists is modelled separately on an
explicit heap. -/
mutual
def injectTree (env : List Char → Option (List Char)) (f : Nat) :
    NodeParams → Except InjectError NodeParams
  | .pdict entries =>
    match injectEntries env f entries with
    | .error e => .error e
    | .ok es => .ok (.pdict es)
  | .plist items =>
    match injectItems env f items with
    | .error e => .error e
    | .ok ls => .ok (.plist ls)
  | .pstr s =>
    match injectStr env f s with
    | .error e => .error e
    | .ok s' => .ok (.pstr s')
  | .pint n => .ok (.pint n)
  | .pfloat x => .ok (.pfloat x)
  | .pbool b => .ok (.pbool b)
  | .pnone => .ok .pnone
termination_by structural t => t

def injectEntries (env : List Char → Option (List Char)) (f : Nat) :
    EntryList → Except InjectError EntryList
  | .nil => .ok .nil
  | .cons k v rest =>
    match injectTree env f v with
    | .error e => .error e
    | .ok v' =>
      match injectEntries env f rest with
      | .error e => .error e
      | .ok rest' => .ok (.cons k v' rest')
termination_by structural e => e

def injectItems (env : List Char → Option (List Char)) (f : Nat) :
    ParamList → Except InjectError ParamList
  | .nil => .ok .nil
  | .cons v rest =>
    match injectTree env f v with
    | .error e => .error e
    | .ok v' =>
      match injectItems env f rest with
      | .error e => .error e
      | .ok rest' => .ok (.cons v' rest')
termination_by structural l => l
end

/- String leaves of a parameter tree, in the traversal order of
`inject_env_vars`. -/
mutual
def stringLeaves : NodeParams → List (List Char)
  | .pdict entries => entryLeaves entries
  | .plist items => itemLeaves items
  | .pstr s => [s]
  | .pint _ => []
  | .pfloat _ => []
  | .pbool _ => []
  | .pnone => []
termination_by structural t => t

def entryLeaves : EntryList → List (List Char)
  | .nil => []
  | .cons _ v rest => stringLeaves v ++ entryLeaves rest
termination_by structural e => e

def itemLeaves : ParamList → List (List Char)
  | .nil => []
  | .cons v rest => stringLeaves v ++ itemLeaves rest
termination_by structural l => l
end

/-- First-match placeholder names of the tree's string leaves, in
traversal order: the head of this list is the first placeholder the
injector resolves. -/
def leafNames (t : NodeParams) : List (List Char) :=
  (stringLeaves t).filterMap scanFirst

/-- Empty process environment, for the missing-variable witness. -/
def noEnv : List Char → Option (List Char) := fun _ => none

/-- Sample environment for the injector witnesses: only `A` is set. -/
def sampleEnv : List Char → Option (List Char) :=
  fun n => if n = ['A'] then some ['x'] else none

/-- Sample tree `{"k": "{$A}"}` for the injector witnesses. -/
def sampleTree : NodeParams :=
  .pdict (.cons "k" (.pstr ['{', '$', 'A', '}']) .nil)

/-- Injection result of `sampleTree` under `sampleEnv`: `{"k": "x"}`. -/
def sampleTreeResolved : NodeParams :=
  .pdict (.cons "k" (.pstr ['x']) .nil)

/-! ## Definitions: node logging and test setup (`aineko/core/node.py` lines 184-246) -/

/-- Modelled from the spec: the fixed set of allowed log levels
(`AINEKO_CONFIG.get("LOG_LEVELS")`; `aineko/config.py` is not among the
sources).  The spec fixes the set as info, debug, warning, error,
critical. -/
def logLevels : List String := ["info", "debug", "warning", "error", "critical"]

/-- Modelled from the spec: the name of the reserved, always-present
logging output dataset (`DEFAULT_KAFKA_CONFIG.get("LOGGING_DATASET")`;
`aineko/config.py` is not among the sources — the spec fixes only that a
single reserved dataset exists, not its name). -/
def loggingDataset : String := "logging"

/-- Modelled from the spec: the reserved dataset names appended to every
test-mode node's outputs (`TESTING_NODE_CONFIG.get("DATASETS")`;
`aineko/config.py` is not among the sources).  They include the logging
dataset, which is how the logging output is always present in test
mode. -/
def testingDatasets : List String := [loggingDataset]

/-- The record `log` writes (node.py line 244):
`out_msg = {"log": message, "level": level}`. -/
structure LogRecord where
  log : String
  level : String
deriving DecidableEq

/-- Failures of `AbstractNode.log`: the `ValueError` for an invalid
level (node.py lines 239-243) carrying its message, or the `KeyError`
Python would raise if the logging dataset were absent from
`self.outputs` (node.py line 246). -/
inductive LogError where
  | invalidLevel (msg : String)
  | missingOutput (name : String)
deriving DecidableEq

/-- The `ValueError` message of node.py lines 240-243: `f"Invalid
logging level {level}. Valid options are: {', '.join(self.log_levels)}"`. -/
def invalidLevelMessage (level : String) : String :=
  "Invalid logging level " ++ level ++ ". Valid options are: " ++
    String.intercalate ", " logLevels

/-- Dict lookup `self.outputs[name]` on the node's output mapping (keys
are unique, as in a Python dict), returning the named double's `values`
buffer. -/
def lookupOutput : List (String × List LogRecord) → String →
    Option (List LogRecord)
  | [], _ => none
  | p :: rest, name => if p.1 = name then some p.2 else lookupOutput rest name

/-- Appending a record to the named output double
(`self.outputs[name].write(out_msg)`, node.py line 246): the double's
`values` buffer grows at the end. -/
def writeOutput (outs : List (String × List LogRecord)) (name : String)
    (r : LogRecord) : List (String × List LogRecord) :=
  outs.map (fun p => if p.1 = name then (p.1, p.2 ++ [r]) else p)

/-- `AbstractNode.log` (node.py lines 229-246): reject a level outside
the allowed set with the `ValueError` — writing nothing — and otherwise
write `{"log": message, "level": level}` to the reserved logging output
dataset. -/
def nodeLog (outs : List (String × List LogRecord)) (message level : String) :
    Except LogError (List (String × List LogRecord)) :=
  if level ∉ logLevels then
    .error (.invalidLevel (invalidLevelMessage level))
  else
    match lookupOutput outs loggingDataset with
    | none => .error (.missingOutput loggingDataset)
    | some _ => .ok (writeOutput outs loggingDataset ⟨message, level⟩)

/-- Key collapse of a Python dict comprehension: the first occurrence of
a key wins its position, later duplicates are dropped. -/
def dedupKeys : List String → List String → List String
  | _, [] => []
  | seen, n :: rest =>
    if n ∈ seen then dedupKeys seen rest
    else n :: dedupKeys (n :: seen) rest

/-- The outputs built by `setup_test` (node.py lines 217-226):
`outputs = outputs or []`, then
`outputs.extend(TESTING_NODE_CONFIG.get("DATASETS"))`, then one fresh
`FakeDatasetOutput` (empty buffer) per name in a dict comprehension. -/
def setupTestOutputs (outputs : Option (List String)) :
    List (String × List LogRecord) :=
  (dedupKeys [] ((outputs.getD []) ++ testingDatasets)).map (fun n => (n, []))

/-! ## Definitions: in-place mutation model of the injector (`aineko/core/config_loader.py` lines 202-207) -/

/-- Python objects on an explicit heap, for the aliasing claim about
`inject_env_vars`: an address (a `Nat` index into the store) stands for
one object; dict entries and list items hold references to other
objects. -/
inductive HeapVal where
  | hdict (entries : List (String × Nat))
  | hlist (items : List Nat)
  | hstr (s : List Char)
  | hint (n : Int)
  | hfloat (x : Nat)
  | hbool (b : Bool)
  | hnone
deriving DecidableEq

/-- The object store: address `a` holds `σ.get? a`. -/
abbrev Store := List HeapVal

mutual

/-- Heap-level `inject_env_vars` (config_loader.py lines 202-226),
keeping Python's aliasing observable: a dict or list argument is mutated
entry by entry (`node_params[k] = self.inject_env_vars(v)`,
`node_params[i] = self.inject_env_vars(v)`) and the very same address is
returned (`return node_params`); a string with a placeholder resolves to
a fresh object (Python strings are immutable — `node_params =
node_params.replace(...)` rebinds the local only), while a
placeholder-free string and every other scalar return their own address
unchanged.  `sf` is the recursion allowance for the string substitution
loop; the first `Nat` argument is fuel for the heap walk (Python
recursion on a cyclic object graph exhausts the stack, hence the fuel-0
`recursionError`). -/
def injectH (env : List Char → Option (List Char)) (sf : Nat) :
    Nat → Store → Nat → Except InjectError (Store × Nat)
  | 0, _, _ => .error .recursionError
  | fuel + 1, σ, a =>
    match σ.get? a with
    | none => .error .invalidRef
    | some (.hdict entries) =>
      match injectHEntries env sf fuel σ entries with
      | .error e => .error e
      | .ok (σ', entries') => .ok (σ'.set a (.hdict entries'), a)
    | some (.hlist items) =>
      match injectHItems env sf fuel σ items with
      | .error e => .error e
      | .ok (σ', items') => .ok (σ'.set a (.hlist items'), a)
    | some (.hstr s) =>
      match scanFirst s with
      | none => .ok (σ, a)
      | some _ =>
        match injectStr env sf s with
        | .error e => .error e
        | .ok s' => .ok (σ ++ [.hstr s'], σ.length)
    | some (.hint n) => .ok (σ, a)
    | some (.hfloat x) => .ok (σ, a)
    | some (.hbool b) => .ok (σ, a)
    | some .hnone => .ok (σ, a)
termination_by structural fuel σ a => fuel

/-- Heap walk over the entries of a dict object, in order, threading the
store. -/
def injectHEntries (env : List Char → Option (List Char)) (sf : Nat) :
    Nat → Store → List (String × Nat) →
      Except InjectError (Store × List (String × Nat))
  | 0, _, _ => .error .recursionError
  | _ + 1, σ, [] => .ok (σ, [])
  | fuel + 1, σ, (k, r) :: rest =>
    match injectH env sf fuel σ r with
    | .error e => .error e
    | .ok (σ', r') =>
      match injectHEntries env sf fuel σ' rest with
      | .error e => .error e
      | .ok (σ'', rest') => .ok (σ'', (k, r') :: rest')
termination_by structural fuel σ l => fuel

/-- Heap walk over the items of a list object, in order, threading the
store. -/
def injectHItems (env : List Char → Option (List Char)) (sf : Nat) :
    Nat → Store → List Nat → Except InjectError (Store × List Nat)
  | 0, _, _ => .error .recursionError
  | _ + 1, σ, [] => .ok (σ, [])
  | fuel + 1, σ, r :: rest =>
    match injectH env sf fuel σ r with
    | .error e => .error e
    | .ok (σ', r') =>
      match injectHItems env sf fuel σ' rest with
      | .error e => .error e
      | .ok (σ'', rest') => .ok (σ'', r' :: rest')
termination_by structural fuel σ l => fuel

end

/-- Sample heap for the in-place witness: address 0 holds the string
`"{$A}"`, address 1 the dict `{"k": <address 0>}`. -/
def heapBefore : Store :=
  [.hstr ['{', '$', 'A', '}'], .hdict [("k", 0)]]

/-- Heap after injecting address 1 of `heapBefore` under `sampleEnv`:
the resolved string `"x"` is a fresh object at address 2, the dict at
address 1 was updated in place, and the original string object at
address 0 is untouched. -/
def heapAfter : Store :=
  [.hstr ['{', '$', 'A', '}'], .hdict [("k", 2)], .hstr ['x']]

/-! ## Theorems -/

/-- Helper: the guard `run_loop is not False` rejects exactly the
`False` singleton. -/
theorem runLoopContinues_eq_false_iff :
    ∀ r : PyVal, runLoopContinues r = false ↔ r = PyVal.pybool false := by
  intro r
  cases r with
  | pybool b => cases b <;> simp [runLoopContinues]
  | pynone => simp [runLoopContinues]
  | pyint n => simp [runLoopContinues]
  | pystr s => simp [runLoopContinues]
  | pylist l => simp [runLoopContinues]

/-- Helper: every event the execute loop emits is a step call. -/
theorem executeLoop_events_are_steps :
    ∀ (results : Nat → PyVal) (fuel i : Nat) (tr : List ExecEvent),
      executeLoop results fuel i = some tr →
      ∀ e ∈ tr, ∃ j, e = ExecEvent.stepCall j := by
  intro results fuel
  induction fuel with
  | zero => intro i tr h; simp [executeLoop] at h
  | succ n ih =>
    intro i tr h
    rw [executeLoop] at h
    split at h
    · cases hrec : executeLoop results n (i + 1) with
      | none => rw [hrec] at h; simp at h
      | some tr1 =>
        rw [hrec] at h
        simp only [Option.map_some', Option.some.injEq] at h
        subst h
        intro e he
        rcases List.mem_cons.mp he with rfl | hmem
        · exact ⟨i, rfl⟩
        · exact ih (i + 1) tr1 hrec e hmem
    · simp only [Option.some.injEq] at h
      subst h
      intro e he
      rcases List.mem_singleton.mp he with rfl
      exact ⟨i, rfl⟩

/-- C1: for every dataset operation on either hierarchy, the public
wrapper returns the private implementation's result unchanged on success,
re-raises a `DatasetError` unchanged, and wraps any other exception in a
`DatasetError` whose message names the dataset and whose cause is the
original exception. -/
theorem c1_dataset_error_wrapping : ∀ (α : Type) (op : DatasetOp) (n : String),
    (∀ v : α, wrapDatasetOp op n (Except.ok v) = Except.ok v ∧
      wrapAsyncDatasetOp op n (Except.ok v) = Except.ok v) ∧
    (∀ (m : String) (c : Option PyExc),
      wrapDatasetOp (α := α) op n (Except.error (PyExc.datasetError m c)) =
        Except.error (PyExc.datasetError m c) ∧
      wrapAsyncDatasetOp (α := α) op n (Except.error (PyExc.datasetError m c)) =
        Except.error (PyExc.datasetError m c)) ∧
    (∀ d : String,
      wrapDatasetOp (α := α) op n (Except.error (PyExc.otherExc d)) =
        Except.error (PyExc.datasetError (opFailureMessage op n)
          (some (PyExc.otherExc d))) ∧
      wrapAsyncDatasetOp (α := α) op n (Except.error (PyExc.otherExc d)) =
        Except.error (PyExc.datasetError (opFailureMessage op n)
          (some (PyExc.otherExc d)))) ∧
    (∃ a b : String, opFailureMessage op n = a ++ n ++ b) := by
  intro α op n
  refine ⟨fun v => ⟨rfl, rfl⟩, fun m c => ⟨rfl, rfl⟩, fun d => ⟨rfl, rfl⟩, ?_⟩
  cases op with
  | readOp => exact ⟨"Failed to read dataset ", ".", rfl⟩
  | writeOp => exact ⟨"Failed to write dataset ", ".", rfl⟩
  | createOp => exact ⟨"Failed to create dataset ", ".", rfl⟩
  | deleteOp => exact ⟨"Failed to delete dataset ", ".", rfl⟩
  | existsOp => exact ⟨"Failed to check if dataset ", " exists.", rfl⟩
  | initOp => exact ⟨"Failed to initialize dataset ", ".", rfl⟩

/-- C5 counterexample: a status tracking one completed topic future and
one incomplete status object.  `done()` returns `True` (the status list
is never consulted once the futures mapping is non-empty), while the
claim — true exactly when the tracked set is empty or every tracked
operation is complete — evaluates to false here. -/
theorem c5_done_counterexample :
    DatasetCreateStatus.done mixedCreateStatus = some true ∧
    doneSpecClaim mixedCreateStatus = false := by
  exact ⟨rfl, rfl⟩

/-- C5 amended: `done()` never returns Python `None`, is `True` when
neither tracker is (truthily) present, returns whether all futures are
done when the futures mapping is non-empty — ignoring the status list —
and otherwise returns whether all statuses are done. -/
theorem c5_done_amended : ∀ s : DatasetCreateStatus,
    DatasetCreateStatus.done s = some (
      if truthyOptList s.kafka_topic_to_future then
        (s.kafka_topic_to_future.getD []).all (fun p => p.2)
      else if truthyOptList s.status_list then
        (s.status_list.getD []).all (fun b => b)
      else true) := by
  intro s
  obtain ⟨n, kf, sl⟩ := s
  cases kf with
  | none =>
    cases sl with
    | none => rfl
    | some l =>
      cases l with
      | nil => rfl
      | cons x xs => simp [DatasetCreateStatus.done, truthyOptList]
  | some k =>
    cases k with
    | nil =>
      cases sl with
      | none => rfl
      | some l =>
        cases l with
        | nil => rfl
        | cons x xs => simp [DatasetCreateStatus.done, truthyOptList]
    | cons y ys =>
      simp [DatasetCreateStatus.done, truthyOptList]

/-- C9: `activate_poison_pill` is idempotent; with a flag reference one
call (or two) leaves the flag active; without one the call is a no-op
that does not fail; and no `PoisonPill` operation ever takes the flag
back from active to inactive. -/
theorem c9_poison_pill_idempotent :
    (∀ pp : Option PoisonPill,
      activatePoisonPill (activatePoisonPill pp) = activatePoisonPill pp) ∧
    (∀ p : PoisonPill, activatePoisonPill (some p) = some ⟨true⟩) ∧
    (activatePoisonPill none = none) ∧
    (∀ (op : PoisonPillOp) (p : PoisonPill), p.state = true →
      (applyPoisonPillOp op p).state = true) := by
  refine ⟨fun pp => ?_, fun p => rfl, rfl, fun op p h => ?_⟩
  · cases pp <;> rfl
  · cases op with
    | activateOp => rfl
    | getStateOp => exact h

/-- C3 counterexample: on a node whose first step returns `False`, the
trace of `execute` is pre-hook, step, final log line, post-hook — the
log line (node.py line 278) comes before the post-loop hook (line 279),
not after it as the claim states. -/
theorem c3_execute_order_counterexample :
    executeTrace "MyNode" (fun _ => PyVal.pybool false) 2 =
      some [ExecEvent.preHookEv, ExecEvent.stepCall 0,
        ExecEvent.logLine (execCompleteMessage "MyNode"), ExecEvent.postHookEv] ∧
    executeTrace "MyNode" (fun _ => PyVal.pybool false) 2 ≠
      some [ExecEvent.preHookEv, ExecEvent.stepCall 0,
        ExecEvent.postHookEv, ExecEvent.logLine (execCompleteMessage "MyNode")] := by
  exact ⟨rfl, by decide⟩

/-- C3 amended: on every normal completion, `execute` performs the
pre-loop hook, then only step calls, then the final log line naming the
node, and then — after the log line — the post-loop hook. -/
theorem c3_execute_order_amended :
    ∀ (cls : String) (results : Nat → PyVal) (fuel : Nat) (tr : List ExecEvent),
      executeTrace cls results fuel = some tr →
      ∃ steps, tr = ExecEvent.preHookEv ::
          (steps ++ [ExecEvent.logLine (execCompleteMessage cls), ExecEvent.postHookEv]) ∧
        (∀ e ∈ steps, ∃ j, e = ExecEvent.stepCall j) := by
  intro cls results fuel tr h
  unfold executeTrace at h
  cases hrec : executeLoop results fuel 0 with
  | none => rw [hrec] at h; simp at h
  | some tr0 =>
    rw [hrec] at h
    simp only [Option.map_some', Option.some.injEq] at h
    exact ⟨tr0, h.symm, executeLoop_events_are_steps results fuel 0 tr0 hrec⟩

/-- C3 witness: the amended order theorem applied to a node whose first
step returns `False`. -/
theorem c3_execute_order_amended_witness :
    ∃ steps, [ExecEvent.preHookEv, ExecEvent.stepCall 0,
        ExecEvent.logLine (execCompleteMessage "MyNode"), ExecEvent.postHookEv] =
        ExecEvent.preHookEv ::
          (steps ++ [ExecEvent.logLine (execCompleteMessage "MyNode"), ExecEvent.postHookEv]) ∧
      (∀ e ∈ steps, ∃ j, e = ExecEvent.stepCall j) :=
  c3_execute_order_amended "MyNode" (fun _ => PyVal.pybool false) 2 _ rfl

/-- C4 counterexample: a step that always returns `None` — a false-like
value, which the claim says ends the loop — keeps the loop running
(still unfinished after 30 iterations), because the guard `run_loop is
not False` only stops on the `False` singleton. -/
theorem c4_loop_stop_counterexample :
    pyFalsy PyVal.pynone = true ∧
    executeTrace "MyNode" (fun _ => PyVal.pynone) 30 = none := by
  exact ⟨rfl, rfl⟩

/-- C4 amended: in the execute run loop, only the exact boolean `False`
return value ends the loop; every other return value — including `None`,
`0`, and empty collections — continues it.  Whenever the loop finishes,
it ran exactly up to the first step that returned `False`. -/
theorem c4_loop_stop_amended :
    (∀ r : PyVal, runLoopContinues r = false ↔ r = PyVal.pybool false) ∧
    (∀ (results : Nat → PyVal) (fuel i : Nat) (tr : List ExecEvent),
      executeLoop results fuel i = some tr →
      ∃ k, i ≤ k ∧ results k = PyVal.pybool false ∧
        (∀ j, i ≤ j → j < k → runLoopContinues (results j) = true) ∧
        tr = (List.range' i (k + 1 - i)).map ExecEvent.stepCall) := by
  refine ⟨runLoopContinues_eq_false_iff, ?_⟩
  intro results fuel
  induction fuel with
  | zero => intro i tr h; simp [executeLoop] at h
  | succ n ih =>
    intro i tr h
    rw [executeLoop] at h
    split at h
    · rename_i hcont
      cases hrec : executeLoop results n (i + 1) with
      | none => rw [hrec] at h; simp at h
      | some tr1 =>
        rw [hrec] at h
        simp only [Option.map_some', Option.some.injEq] at h
        subst h
        obtain ⟨k, hik, hfalse, hcontall, htr⟩ := ih (i + 1) tr1 hrec
        refine ⟨k, by omega, hfalse, ?_, ?_⟩
        · intro j hij hjk
          rcases Nat.eq_or_lt_of_le hij with rfl | hlt
          · exact hcont
          · exact hcontall j hlt hjk
        · have hlen : k + 1 - i = (k + 1 - (i + 1)) + 1 := by omega
          rw [hlen, List.range'_succ, List.map_cons, htr]
    · rename_i hstop
      simp only [Option.some.injEq] at h
      subst h
      have hfalse : results i = PyVal.pybool false :=
        (runLoopContinues_eq_false_iff (results i)).mp (by
          cases hc : runLoopContinues (results i)
          · rfl
          · exact absurd hc hstop)
      refine ⟨i, le_refl i, hfalse, fun j h1 h2 => absurd (lt_of_le_of_lt h1 h2) (lt_irrefl i), ?_⟩
      simp

/-- C4 witness: the amended stop-condition theorem applied to a step that
returns `False` immediately. -/
theorem c4_loop_stop_amended_witness :
    ∃ k, 0 ≤ k ∧ (fun (_ : Nat) => PyVal.pybool false) k = PyVal.pybool false ∧
      (∀ j, 0 ≤ j → j < k →
        runLoopContinues ((fun (_ : Nat) => PyVal.pybool false) j) = true) ∧
      [ExecEvent.stepCall 0] = (List.range' 0 (k + 1 - 0)).map ExecEvent.stepCall :=
  c4_loop_stop_amended.2 (fun _ => PyVal.pybool false) 1 0 [ExecEvent.stepCall 0] rfl

/-- Helper: whenever the run_test loop returns, the final state is the
result of the last step, at least one iteration ran, and the exit was
caused either by the step returning `False` or by all input doubles
being empty (with inputs present) on an iteration where the runtime
budget, if any, had already elapsed. -/
theorem runTestLoop_exit {V : Type} :
    ∀ (step : TestState V → TestState V × Option Bool) (clock : Nat → Nat)
      (runtime : Option Nat) (start fuel i : Nat) (st : TestState V)
      (stf : TestState V) (k : Nat),
      runTestLoop step clock runtime start fuel i st = some (stf, k) →
      i < k ∧ ∃ stp r, step stp = (stf, r) ∧
        (r = some false ∨
          ((!stf.inputs.isEmpty && allInputsEmpty stf) = true ∧
            budgetElapsedFrom clock runtime start k)) := by
  intro step clock runtime start fuel
  cases runtime with
  | some rt =>
    induction fuel with
    | zero => intro i st stf k h; simp [runTestLoop] at h
    | succ n ih =>
      intro i st stf k h
      rw [runTestLoop] at h
      by_cases hclock : clock (i + 1) - start < rt
      · rw [if_pos hclock] at h
        by_cases hr : (step st).2 = some false
        · rw [if_pos hr] at h
          simp only [Option.some.injEq, Prod.mk.injEq] at h
          obtain ⟨h1, h2⟩ := h
          subst h1; subst h2
          exact ⟨Nat.lt_succ_self i, st, (step st).2, rfl, Or.inl hr⟩
        · rw [if_neg hr] at h
          obtain ⟨hik, rest⟩ := ih (i + 1) (step st).1 stf k h
          exact ⟨by omega, rest⟩
      · rw [if_neg hclock] at h
        by_cases hempty :
            (!(step st).1.inputs.isEmpty && allInputsEmpty (step st).1) = true
        · rw [if_pos hempty] at h
          simp only [Option.some.injEq, Prod.mk.injEq] at h
          obtain ⟨h1, h2⟩ := h
          subst h1; subst h2
          refine ⟨Nat.lt_succ_self i, st, (step st).2, rfl, Or.inr ⟨hempty, ?_⟩⟩
          simp only [budgetElapsedFrom]
          omega
        · rw [if_neg hempty] at h
          by_cases hr : (step st).2 = some false
          · rw [if_pos hr] at h
            simp only [Option.some.injEq, Prod.mk.injEq] at h
            obtain ⟨h1, h2⟩ := h
            subst h1; subst h2
            exact ⟨Nat.lt_succ_self i, st, (step st).2, rfl, Or.inl hr⟩
          · rw [if_neg hr] at h
            obtain ⟨hik, rest⟩ := ih (i + 1) (step st).1 stf k h
            exact ⟨by omega, rest⟩
  | none =>
    induction fuel with
    | zero => intro i st stf k h; simp [runTestLoop] at h
    | succ n ih =>
      intro i st stf k h
      rw [runTestLoop] at h
      by_cases hempty :
          (!(step st).1.inputs.isEmpty && allInputsEmpty (step st).1) = true
      · rw [if_pos hempty] at h
        simp only [Option.some.injEq, Prod.mk.injEq] at h
        obtain ⟨h1, h2⟩ := h
        subst h1; subst h2
        exact ⟨Nat.lt_succ_self i, st, (step st).2, rfl,
          Or.inr ⟨hempty, trivial⟩⟩
      · rw [if_neg hempty] at h
        by_cases hr : (step st).2 = some false
        · rw [if_pos hr] at h
          simp only [Option.some.injEq, Prod.mk.injEq] at h
          obtain ⟨h1, h2⟩ := h
          subst h1; subst h2
          exact ⟨Nat.lt_succ_self i, st, (step st).2, rfl, Or.inl hr⟩
        · rw [if_neg hr] at h
          obtain ⟨hik, rest⟩ := ih (i + 1) (step st).1 stf k h
          exact ⟨by omega, rest⟩

/-- C2 counterexample: with a runtime budget of 0 (elapsed from the very
first check, since the frozen clock gives `time.time() - start_time = 0
< 0` false) and an input double that is never exhausted, the claim says
`run_test` terminates once the budget elapses; the loop is in fact still
running after 30 iterations, because the budget alone never ends the
loop — it only enables the exhaustion check. -/
theorem c2_run_test_counterexample :
    runTest (V := Nat) id id (fun st => (st, some true)) (fun _ => 0)
        (some 0) 30 ⟨[("i", [5])], [("o", [])]⟩ = none ∧
    allInputsEmpty (TestState.mk (V := Nat) [("i", [5])] [("o", [])]) = false := by
  exact ⟨rfl, rfl⟩

/-- C2 amended: in test mode, `run_test` ends its loop when the step
returns `False`, or when — on an iteration where the optional runtime
budget has already elapsed (the budget alone never ends the loop, and
exhaustion is not even checked before it elapses) — the node has inputs
and every input double reports itself exhausted; this happens only after
at least one full iteration, and the call returns, for each output name,
the full ordered sequence of values produced to that output.  Conversely
(second conjunct), an iteration whose step leaves every input double
empty, with inputs present and the budget elapsed or absent, is
immediately the last. -/
theorem c2_run_test_amended :
    (∀ (V : Type) (pre post : TestState V → TestState V)
      (step : TestState V → TestState V × Option Bool)
      (clock : Nat → Nat) (runtime : Option Nat) (fuel : Nat)
      (st0 : TestState V) (out : List (String × List V)),
      runTest pre post step clock runtime fuel st0 = some out →
      ∃ stf k, 1 ≤ k ∧ out = (post stf).outputs ∧
        ∃ stp r, step stp = (stf, r) ∧
          (r = some false ∨
            ((!stf.inputs.isEmpty && allInputsEmpty stf) = true ∧
              budgetElapsedFrom clock runtime (clock 0) k))) ∧
    (∀ (V : Type) (step : TestState V → TestState V × Option Bool)
      (clock : Nat → Nat) (runtime : Option Nat) (start fuel i : Nat)
      (st : TestState V),
      (!(step st).1.inputs.isEmpty && allInputsEmpty (step st).1) = true →
      (∀ rt, runtime = some rt → rt ≤ clock (i + 1) - start) →
      runTestLoop step clock runtime start (fuel + 1) i st =
        some ((step st).1, i + 1)) := by
  constructor
  · intro V pre post step clock runtime fuel st0 out h
    unfold runTest at h
    cases hloop : runTestLoop step clock runtime (clock 0) fuel 0 (pre st0) with
    | none => rw [hloop] at h; simp at h
    | some p =>
      rcases p with ⟨stf, k⟩
      rw [hloop] at h
      simp only [Option.some.injEq] at h
      obtain ⟨hik, stp, r, hstep, hreason⟩ :=
        runTestLoop_exit step clock runtime (clock 0) fuel 0 (pre st0) stf k hloop
      exact ⟨stf, k, by omega, h.symm, stp, r, hstep, hreason⟩
  · intro V step clock runtime start fuel i st hempty hbudget
    cases runtime with
    | some rt =>
      have hle : rt ≤ clock (i + 1) - start := hbudget rt rfl
      rw [runTestLoop, if_neg (by omega : ¬ clock (i + 1) - start < rt),
        if_pos hempty]
    | none =>
      rw [runTestLoop, if_pos hempty]

/-- C2 witness: both clauses of the amended run_test theorem applied to a
pass-through configuration whose single step empties the input double
(no runtime budget given). -/
theorem c2_run_test_amended_witness :
    (∃ stf k, 1 ≤ k ∧ [("o", [7])] = (id stf : TestState Nat).outputs ∧
      ∃ stp r,
        (fun (_ : TestState Nat) =>
          ((⟨[("i", [])], [("o", [7])]⟩ : TestState Nat), some true)) stp = (stf, r) ∧
        (r = some false ∨
          ((!stf.inputs.isEmpty && allInputsEmpty stf) = true ∧
            budgetElapsedFrom (fun _ => 0) none ((fun (_ : Nat) => 0) 0) k))) ∧
    runTestLoop (V := Nat)
        (fun _ => (⟨[("i", [])], [("o", [7])]⟩, some true)) (fun _ => 0) none 0
        (1 + 1) 0 ⟨[("i", [5])], [("o", [])]⟩ =
      some (⟨[("i", [])], [("o", [7])]⟩, 0 + 1) := by
  constructor
  · exact c2_run_test_amended.1 Nat id id
      (fun _ => (⟨[("i", [])], [("o", [7])]⟩, some true)) (fun _ => 0) none 2
      ⟨[("i", [5])], [("o", [])]⟩ [("o", [7])] rfl
  · exact c2_run_test_amended.2 Nat
      (fun _ => (⟨[("i", [])], [("o", [7])]⟩, some true)) (fun _ => 0) none 0 1 0
      ⟨[("i", [5])], [("o", [])]⟩ rfl (fun rt h => nomatch h)

/-- Helper: a successful string injection leaves no placeholder match in
the result (success only arises from the no-match base case). -/
theorem injectStr_ok_clean (env : List Char → Option (List Char)) :
    ∀ (f : Nat) (s s' : List Char), injectStr env f s = .ok s' →
      scanFirst s' = none := by
  intro f
  induction f with
  | zero => intro s s' h; exact Except.noConfusion h
  | succ n ih =>
    intro s s' h
    rw [injectStr] at h
    split at h
    · rename_i hscan
      simp only [Except.ok.injEq] at h
      subst h
      exact hscan
    · split at h
      · exact Except.noConfusion h
      · exact ih _ s' h

/-- Helper: a string with no placeholder match is returned unchanged. -/
theorem injectStr_noMatch (env : List Char → Option (List Char)) (f : Nat)
    (s : List Char) (h : scanFirst s = none) :
    injectStr env (f + 1) s = .ok s := by
  rw [injectStr, h]

/-- Helper: string injection is idempotent on its own successful
results. -/
theorem injectStr_ok_idem (env : List Char → Option (List Char)) :
    ∀ (f : Nat) (s s' : List Char), injectStr env f s = .ok s' →
      injectStr env f s' = .ok s' := by
  intro f s s' h
  cases f with
  | zero => exact Except.noConfusion h
  | succ n => exact injectStr_noMatch env n s' (injectStr_ok_clean env (n + 1) s s' h)

mutual

/-- Helper: a successful tree injection leaves no placeholder match in
any string leaf of the result. -/
theorem injectTree_ok_clean (env : List Char → Option (List Char)) (f : Nat) :
    ∀ (t t' : NodeParams), injectTree env f t = .ok t' →
      (stringLeaves t').filterMap scanFirst = []
  | .pdict entries, t', h => by
    rw [injectTree] at h
    cases hres : injectEntries env f entries with
    | error e => rw [hres] at h; exact Except.noConfusion h
    | ok es =>
      rw [hres] at h
      simp only [Except.ok.injEq] at h
      subst h
      simpa only [stringLeaves] using injectEntries_ok_clean env f entries es hres
  | .plist items, t', h => by
    rw [injectTree] at h
    cases hres : injectItems env f items with
    | error e => rw [hres] at h; exact Except.noConfusion h
    | ok ls =>
      rw [hres] at h
      simp only [Except.ok.injEq] at h
      subst h
      simpa only [stringLeaves] using injectItems_ok_clean env f items ls hres
  | .pstr s, t', h => by
    rw [injectTree] at h
    cases hs : injectStr env f s with
    | error e => rw [hs] at h; exact Except.noConfusion h
    | ok s' =>
      rw [hs] at h
      simp only [Except.ok.injEq] at h
      subst h
      have hclean := injectStr_ok_clean env f s s' hs
      simp [stringLeaves, List.filterMap_cons, hclean]
  | .pint n, t', h => by
    simp only [injectTree, Except.ok.injEq] at h
    subst h
    simp [stringLeaves]
  | .pfloat x, t', h => by
    simp only [injectTree, Except.ok.injEq] at h
    subst h
    simp [stringLeaves]
  | .pbool b, t', h => by
    simp only [injectTree, Except.ok.injEq] at h
    subst h
    simp [stringLeaves]
  | .pnone, t', h => by
    simp only [injectTree, Except.ok.injEq] at h
    subst h
    simp [stringLeaves]

/-- Helper: entry-list version of `injectTree_ok_clean`. -/
theorem injectEntries_ok_clean (env : List Char → Option (List Char)) (f : Nat) :
    ∀ (e e' : EntryList), injectEntries env f e = .ok e' →
      (entryLeaves e').filterMap scanFirst = []
  | .nil, e', h => by
    simp only [injectEntries, Except.ok.injEq] at h
    subst h
    simp [entryLeaves]
  | .cons k v rest, e', h => by
    rw [injectEntries] at h
    cases hv : injectTree env f v with
    | error e => rw [hv] at h; exact Except.noConfusion h
    | ok v' =>
      rw [hv] at h
      cases hr : injectEntries env f rest with
      | error e => rw [hr] at h; exact Except.noConfusion h
      | ok rest' =>
        rw [hr] at h
        simp only [Except.ok.injEq] at h
        subst h
        simp [entryLeaves, List.filterMap_append,
          injectTree_ok_clean env f v v' hv,
          injectEntries_ok_clean env f rest rest' hr]

/-- Helper: item-list version of `injectTree_ok_clean`. -/
theorem injectItems_ok_clean (env : List Char → Option (List Char)) (f : Nat) :
    ∀ (l l' : ParamList), injectItems env f l = .ok l' →
      (itemLeaves l').filterMap scanFirst = []
  | .nil, l', h => by
    simp only [injectItems, Except.ok.injEq] at h
    subst h
    simp [itemLeaves]
  | .cons v rest, l', h => by
    rw [injectItems] at h
    cases hv : injectTree env f v with
    | error e => rw [hv] at h; exact Except.noConfusion h
    | ok v' =>
      rw [hv] at h
      cases hr : injectItems env f rest with
      | error e => rw [hr] at h; exact Except.noConfusion h
      | ok rest' =>
        rw [hr] at h
        simp only [Except.ok.injEq] at h
        subst h
        simp [itemLeaves, List.filterMap_append,
          injectTree_ok_clean env f v v' hv,
          injectItems_ok_clean env f rest rest' hr]

end

mutual

/-- Helper: tree injection is idempotent on its own successful results. -/
theorem injectTree_ok_idem (env : List Char → Option (List Char)) (f : Nat) :
    ∀ (t t' : NodeParams), injectTree env f t = .ok t' →
      injectTree env f t' = .ok t'
  | .pdict entries, t', h => by
    rw [injectTree] at h
    cases hres : injectEntries env f entries with
    | error e => rw [hres] at h; exact Except.noConfusion h
    | ok es =>
      rw [hres] at h
      simp only [Except.ok.injEq] at h
      subst h
      rw [injectTree, injectEntries_ok_idem env f entries es hres]
  | .plist items, t', h => by
    rw [injectTree] at h
    cases hres : injectItems env f items with
    | error e => rw [hres] at h; exact Except.noConfusion h
    | ok ls =>
      rw [hres] at h
      simp only [Except.ok.injEq] at h
      subst h
      rw [injectTree, injectItems_ok_idem env f items ls hres]
  | .pstr s, t', h => by
    rw [injectTree] at h
    cases hs : injectStr env f s with
    | error e => rw [hs] at h; exact Except.noConfusion h
    | ok s' =>
      rw [hs] at h
      simp only [Except.ok.injEq] at h
      subst h
      rw [injectTree, injectStr_ok_idem env f s s' hs]
  | .pint n, t', h => by
    simp only [injectTree, Except.ok.injEq] at h
    subst h
    rfl
  | .pfloat x, t', h => by
    simp only [injectTree, Except.ok.injEq] at h
    subst h
    rfl
  | .pbool b, t', h => by
    simp only [injectTree, Except.ok.injEq] at h
    subst h
    rfl
  | .pnone, t', h => by
    simp only [injectTree, Except.ok.injEq] at h
    subst h
    rfl

/-- Helper: entry-list version of `injectTree_ok_idem`. -/
theorem injectEntries_ok_idem (env : List Char → Option (List Char)) (f : Nat) :
    ∀ (e e' : EntryList), injectEntries env f e = .ok e' →
      injectEntries env f e' = .ok e'
  | .nil, e', h => by
    simp only [injectEntries, Except.ok.injEq] at h
    subst h
    rfl
  | .cons k v rest, e', h => by
    rw [injectEntries] at h
    cases hv : injectTree env f v with
    | error e => rw [hv] at h; exact Except.noConfusion h
    | ok v' =>
      rw [hv] at h
      cases hr : injectEntries env f rest with
      | error e => rw [hr] at h; exact Except.noConfusion h
      | ok rest' =>
        rw [hr] at h
        simp only [Except.ok.injEq] at h
        subst h
        rw [injectEntries, injectTree_ok_idem env f v v' hv,
          injectEntries_ok_idem env f rest rest' hr]

/-- Helper: item-list version of `injectTree_ok_idem`. -/
theorem injectItems_ok_idem (env : List Char → Option (List Char)) (f : Nat) :
    ∀ (l l' : ParamList), injectItems env f l = .ok l' →
      injectItems env f l' = .ok l'
  | .nil, l', h => by
    simp only [injectItems, Except.ok.injEq] at h
    subst h
    rfl
  | .cons v rest, l', h => by
    rw [injectItems] at h
    cases hv : injectTree env f v with
    | error e => rw [hv] at h; exact Except.noConfusion h
    | ok v' =>
      rw [hv] at h
      cases hr : injectItems env f rest with
      | error e => rw [hr] at h; exact Except.noConfusion h
      | ok rest' =>
        rw [hr] at h
        simp only [Except.ok.injEq] at h
        subst h
        rw [injectItems, injectTree_ok_idem env f v v' hv,
          injectItems_ok_idem env f rest rest' hr]

end

mutual

/-- Helper: a tree with no placeholder match in any string leaf injects
to itself. -/
theorem injectTree_clean_ok (env : List Char → Option (List Char)) (f : Nat) :
    ∀ t : NodeParams, (stringLeaves t).filterMap scanFirst = [] →
      injectTree env (f + 1) t = .ok t
  | .pdict entries, h => by
    simp only [stringLeaves] at h
    rw [injectTree, injectEntries_clean_ok env f entries h]
  | .plist items, h => by
    simp only [stringLeaves] at h
    rw [injectTree, injectItems_clean_ok env f items h]
  | .pstr s, h => by
    simp only [stringLeaves] at h
    cases hscan : scanFirst s with
    | some name => simp [List.filterMap_cons, hscan] at h
    | none => rw [injectTree, injectStr_noMatch env f s hscan]
  | .pint n, _ => rfl
  | .pfloat x, _ => rfl
  | .pbool b, _ => rfl
  | .pnone, _ => rfl

/-- Helper: entry-list version of `injectTree_clean_ok`. -/
theorem injectEntries_clean_ok (env : List Char → Option (List Char)) (f : Nat) :
    ∀ e : EntryList, (entryLeaves e).filterMap scanFirst = [] →
      injectEntries env (f + 1) e = .ok e
  | .nil, _ => rfl
  | .cons k v rest, h => by
    simp only [entryLeaves, List.filterMap_append, List.append_eq_nil] at h
    obtain ⟨h1, h2⟩ := h
    rw [injectEntries, injectTree_clean_ok env f v h1,
      injectEntries_clean_ok env f rest h2]

/-- Helper: item-list version of `injectTree_clean_ok`. -/
theorem injectItems_clean_ok (env : List Char → Option (List Char)) (f : Nat) :
    ∀ l : ParamList, (itemLeaves l).filterMap scanFirst = [] →
      injectItems env (f + 1) l = .ok l
  | .nil, _ => rfl
  | .cons v rest, h => by
    simp only [itemLeaves, List.filterMap_append, List.append_eq_nil] at h
    obtain ⟨h1, h2⟩ := h
    rw [injectItems, injectTree_clean_ok env f v h1,
      injectItems_clean_ok env f rest h2]

end

mutual

/-- Helper: when the first placeholder name of the tree (in traversal
order) is unset in the environment, injection raises the
missing-variable `ValueError` for exactly that name. -/
theorem injectTree_missing (env : List Char → Option (List Char)) (f : Nat) :
    ∀ (t : NodeParams) (vName : List Char),
      ((stringLeaves t).filterMap scanFirst).head? = some vName →
      env vName = none →
      injectTree env (f + 1) t = .error (.missingVar (missingVarMessage vName))
  | .pdict entries, vName, h1, h2 => by
    simp only [stringLeaves] at h1
    rw [injectTree, injectEntries_missing env f entries vName h1 h2]
  | .plist items, vName, h1, h2 => by
    simp only [stringLeaves] at h1
    rw [injectTree, injectItems_missing env f items vName h1 h2]
  | .pstr s, vName, h1, h2 => by
    simp only [stringLeaves] at h1
    cases hscan : scanFirst s with
    | none => simp [List.filterMap_cons, hscan] at h1
    | some name =>
      simp only [List.filterMap_cons, hscan, List.filterMap_nil,
        List.head?_cons, Option.some.injEq] at h1
      subst h1
      rw [injectTree, injectStr, hscan]
      simp only [h2]
  | .pint n, vName, h1, _ => by simp [stringLeaves] at h1
  | .pfloat x, vName, h1, _ => by simp [stringLeaves] at h1
  | .pbool b, vName, h1, _ => by simp [stringLeaves] at h1
  | .pnone, vName, h1, _ => by simp [stringLeaves] at h1

/-- Helper: entry-list version of `injectTree_missing`. -/
theorem injectEntries_missing (env : List Char → Option (List Char)) (f : Nat) :
    ∀ (e : EntryList) (vName : List Char),
      ((entryLeaves e).filterMap scanFirst).head? = some vName →
      env vName = none →
      injectEntries env (f + 1) e = .error (.missingVar (missingVarMessage vName))
  | .nil, vName, h1, _ => by simp [entryLeaves] at h1
  | .cons k v rest, vName, h1, h2 => by
    simp only [entryLeaves, List.filterMap_append] at h1
    cases hv : (stringLeaves v).filterMap scanFirst with
    | nil =>
      rw [hv, List.nil_append] at h1
      rw [injectEntries, injectTree_clean_ok env f v hv,
        injectEntries_missing env f rest vName h1 h2]
    | cons a tail =>
      rw [hv] at h1
      simp only [List.cons_append, List.head?_cons, Option.some.injEq] at h1
      subst h1
      rw [injectEntries, injectTree_missing env f v a (by rw [hv]; rfl) h2]

/-- Helper: item-list version of `injectTree_missing`. -/
theorem injectItems_missing (env : List Char → Option (List Char)) (f : Nat) :
    ∀ (l : ParamList) (vName : List Char),
      ((itemLeaves l).filterMap scanFirst).head? = some vName →
      env vName = none →
      injectItems env (f + 1) l = .error (.missingVar (missingVarMessage vName))
  | .nil, vName, h1, _ => by simp [itemLeaves] at h1
  | .cons v rest, vName, h1, h2 => by
    simp only [itemLeaves, List.filterMap_append] at h1
    cases hv : (stringLeaves v).filterMap scanFirst with
    | nil =>
      rw [hv, List.nil_append] at h1
      rw [injectItems, injectTree_clean_ok env f v hv,
        injectItems_missing env f rest vName h1 h2]
    | cons a tail =>
      rw [hv] at h1
      simp only [List.cons_append, List.head?_cons, Option.some.injEq] at h1
      subst h1
      rw [injectItems, injectTree_missing env f v a (by rw [hv]; rfl) h2]

end

/-- C6: whenever `inject_env_vars` succeeds on a parameter tree, applying
it a second time (with the same environment and recursion allowance)
returns the result unchanged; no `{$NAME}` placeholder survives in any
string leaf of the result; and a string containing no placeholder is
always returned unchanged. -/
theorem c6_inject_env_vars_idempotent :
    (∀ (env : List Char → Option (List Char)) (f : Nat) (t t' : NodeParams),
      injectTree env f t = .ok t' →
      injectTree env f t' = .ok t' ∧ leafNames t' = []) ∧
    (∀ (env : List Char → Option (List Char)) (f : Nat) (s : List Char),
      scanFirst s = none → injectStr env (f + 1) s = .ok s) := by
  constructor
  · intro env f t t' h
    exact ⟨injectTree_ok_idem env f t t' h, injectTree_ok_clean env f t t' h⟩
  · intro env f s h
    exact injectStr_noMatch env f s h

/-- C6 witness: idempotence on the resolved form of `{"k": "{$A}"}` with
`A=x`, and stability of the placeholder-free string `"a"`. -/
theorem c6_inject_env_vars_idempotent_witness :
    (injectTree sampleEnv 2 sampleTreeResolved = .ok sampleTreeResolved ∧
      leafNames sampleTreeResolved = []) ∧
    injectStr sampleEnv 1 ['a'] = .ok ['a'] := by
  constructor
  · exact c6_inject_env_vars_idempotent.1 sampleEnv 2 sampleTree
      sampleTreeResolved rfl
  · exact c6_inject_env_vars_idempotent.2 sampleEnv 0 ['a'] rfl

/-- C7: for every parameter tree whose first placeholder (in the
injector's traversal order) names a variable absent from the process
environment, `inject_env_vars` fails with the missing-variable
`ValueError` whose message names exactly that variable — the placeholder
is neither left in place nor replaced by a default. -/
theorem c7_missing_env_var :
    ∀ (env : List Char → Option (List Char)) (f : Nat) (t : NodeParams)
      (vName : List Char),
      (leafNames t).head? = some vName →
      env vName = none →
      injectTree env (f + 1) t = .error (.missingVar (missingVarMessage vName)) ∧
      missingVarMessage vName =
        "Failed to inject environment variable. ".toList ++ vName ++
          " was not found.".toList := by
  intro env f t vName h1 h2
  exact ⟨injectTree_missing env f t vName h1 h2, rfl⟩

/-- C7 witness: injecting `"{$B}"` under an empty environment fails
naming `B`. -/
theorem c7_missing_env_var_witness :
    injectTree noEnv 1 (.pstr ['{', '$', 'B', '}']) =
      .error (.missingVar (missingVarMessage ['B'])) ∧
    missingVarMessage ['B'] =
      "Failed to inject environment variable. ".toList ++ ['B'] ++
        " was not found.".toList :=
  c7_missing_env_var noEnv 0 (.pstr ['{', '$', 'B', '}']) ['B'] rfl rfl

/-- Helper: an element of a list survives dict-comprehension key
collapse (or was already among the seen keys). -/
theorem mem_dedupKeys : ∀ (l seen : List String) (n : String),
    n ∈ l → n ∈ seen ∨ n ∈ dedupKeys seen l := by
  intro l
  induction l with
  | nil => intro seen n h; simp at h
  | cons m rest ih =>
    intro seen n h
    rw [dedupKeys]
    by_cases hm : m ∈ seen
    · rw [if_pos hm]
      rcases List.mem_cons.mp h with rfl | hr
      · exact Or.inl hm
      · exact ih seen n hr
    · rw [if_neg hm]
      rcases List.mem_cons.mp h with rfl | hr
      · exact Or.inr (List.mem_cons_self _ _)
      · rcases ih (m :: seen) n hr with hs | hd
        · rcases List.mem_cons.mp hs with rfl | hs2
          · exact Or.inr (List.mem_cons_self _ _)
          · exact Or.inl hs2
        · exact Or.inr (List.mem_cons_of_mem _ hd)

/-- Helper: looking a present name up in the freshly built output
mapping succeeds. -/
theorem lookupOutput_fresh : ∀ (names : List String) (n : String),
    n ∈ names →
    lookupOutput (names.map (fun m => (m, ([] : List LogRecord)))) n ≠ none := by
  intro names
  induction names with
  | nil => intro n h; simp at h
  | cons m rest ih =>
    intro n h
    rw [List.map_cons, lookupOutput]
    by_cases hm : m = n
    · rw [if_pos hm]; simp
    · rw [if_neg hm]
      rcases List.mem_cons.mp h with rfl | hr
      · exact absurd rfl hm
      · exact ih n hr

/-- C8: `log` with a level outside the fixed set fails with the
invalid-level `ValueError` whose message lists the five valid levels,
writing nothing; with a valid level it writes exactly the record
`{"log": message, "level": level}` to the reserved logging output
dataset (third clause: the write appends exactly that record to the
reserved dataset's buffer); and the logging dataset is present among a
test-mode node's outputs whatever the caller configured — in particular
when no outputs were configured at all. -/
theorem c8_log_record_and_levels :
    (∀ (outs : List (String × List LogRecord)) (message level : String),
      level ∉ logLevels →
      nodeLog outs message level =
        .error (.invalidLevel (invalidLevelMessage level)) ∧
      invalidLevelMessage level = "Invalid logging level " ++ level ++
        ". Valid options are: " ++ "info, debug, warning, error, critical") ∧
    (∀ (outs : List (String × List LogRecord)) (message level : String),
      level ∈ logLevels →
      lookupOutput outs loggingDataset ≠ none →
      nodeLog outs message level =
        .ok (writeOutput outs loggingDataset ⟨message, level⟩)) ∧
    (∀ (outs : List (String × List LogRecord)) (name : String) (r : LogRecord),
      lookupOutput (writeOutput outs name r) name =
        (lookupOutput outs name).map (fun vals => vals ++ [r])) ∧
    (∀ userOutputs : Option (List String),
      lookupOutput (setupTestOutputs userOutputs) loggingDataset ≠ none) := by
  refine ⟨?_, ?_, ?_, ?_⟩
  · intro outs message level h
    exact ⟨by rw [nodeLog, if_pos h], rfl⟩
  · intro outs message level h hlook
    rw [nodeLog, if_neg (not_not_intro h)]
    cases hl : lookupOutput outs loggingDataset with
    | none => exact absurd hl hlook
    | some vals => rfl
  · intro outs name r
    induction outs with
    | nil => rfl
    | cons p rest ih =>
      simp only [writeOutput, List.map_cons] at ih ⊢
      by_cases hp : p.1 = name
      · simp [lookupOutput, hp]
      · simp only [if_neg hp, lookupOutput]
        exact ih
  · intro userOutputs
    have hmem : loggingDataset ∈
        dedupKeys [] ((userOutputs.getD []) ++ testingDatasets) := by
      rcases mem_dedupKeys ((userOutputs.getD []) ++ testingDatasets) []
          loggingDataset (by simp [testingDatasets]) with h | h
      · simp at h
      · exact h
    exact lookupOutput_fresh _ loggingDataset hmem

/-- C8 witness: the four clauses applied to the level `"verbose"` (not
allowed), a valid `"info"` log on an outputs mapping holding the
reserved dataset, a concrete write, and a `setup_test` with no
caller-configured outputs. -/
theorem c8_log_record_and_levels_witness :
    (nodeLog [] "m" "verbose" =
        .error (.invalidLevel (invalidLevelMessage "verbose")) ∧
      invalidLevelMessage "verbose" = "Invalid logging level " ++ "verbose" ++
        ". Valid options are: " ++ "info, debug, warning, error, critical") ∧
    nodeLog [(loggingDataset, [])] "m" "info" =
      .ok (writeOutput [(loggingDataset, [])] loggingDataset ⟨"m", "info"⟩) ∧
    lookupOutput (writeOutput [] loggingDataset ⟨"m", "info"⟩) loggingDataset =
      (lookupOutput [] loggingDataset).map (fun vals => vals ++ [⟨"m", "info"⟩]) ∧
    lookupOutput (setupTestOutputs none) loggingDataset ≠ none := by
  refine ⟨c8_log_record_and_levels.1 [] "m" "verbose" (by decide), ?_, ?_, ?_⟩
  · exact c8_log_record_and_levels.2.1 [(loggingDataset, [])] "m" "info"
      (by decide) (by decide)
  · exact c8_log_record_and_levels.2.2.1 [] loggingDataset ⟨"m", "info"⟩
  · exact c8_log_record_and_levels.2.2.2 none

/-- Helper: setting one address leaves every other address unchanged. -/
theorem store_get?_set_ne {α : Type} : ∀ (l : List α) (i j : Nat) (v : α),
    i ≠ j → (l.set i v).get? j = l.get? j := by
  intro l
  induction l with
  | nil => intro i j v h; simp
  | cons c tl ih =>
    intro i j v h
    cases i with
    | zero =>
      cases j with
      | zero => exact absurd rfl h
      | succ j' => simp [List.set]
    | succ i' =>
      cases j with
      | zero => simp [List.set]
      | succ j' => simpa [List.set] using ih i' j' v (by omega)

/-- Helper: the heap injector never mutates a string object — every
address that held a string before still holds that very string after,
on any successful run (dict and list objects are updated in place;
resolved strings are allocated at fresh addresses). -/
theorem injectH_preserves_strings (env : List Char → Option (List Char))
    (sf : Nat) : ∀ fuel : Nat,
    (∀ (σ : Store) (a : Nat) (σ' : Store) (r : Nat),
      injectH env sf fuel σ a = .ok (σ', r) →
      ∀ (b : Nat) (s : List Char), σ.get? b = some (.hstr s) →
        σ'.get? b = some (.hstr s)) ∧
    (∀ (σ : Store) (l : List (String × Nat)) (σ' : Store)
        (l' : List (String × Nat)),
      injectHEntries env sf fuel σ l = .ok (σ', l') →
      ∀ (b : Nat) (s : List Char), σ.get? b = some (.hstr s) →
        σ'.get? b = some (.hstr s)) ∧
    (∀ (σ : Store) (l : List Nat) (σ' : Store) (l' : List Nat),
      injectHItems env sf fuel σ l = .ok (σ', l') →
      ∀ (b : Nat) (s : List Char), σ.get? b = some (.hstr s) →
        σ'.get? b = some (.hstr s)) := by
  intro fuel
  induction fuel with
  | zero =>
    exact ⟨fun σ a σ' r h => Except.noConfusion h,
      fun σ l σ' l' h => Except.noConfusion h,
      fun σ l σ' l' h => Except.noConfusion h⟩
  | succ n ih =>
    obtain ⟨ihH, ihE, ihI⟩ := ih
    refine ⟨?_, ?_, ?_⟩
    · intro σ a σ' r h b s hb
      rw [injectH] at h
      split at h
      · exact Except.noConfusion h
      · rename_i entries hget
        split at h
        · exact Except.noConfusion h
        · rename_i σ1 entries' hres
          simp only [Except.ok.injEq, Prod.mk.injEq] at h
          obtain ⟨h1, h2⟩ := h
          subst h1
          have hba : a ≠ b := by
            intro heq
            rw [heq] at hget
            rw [hget] at hb
            exact HeapVal.noConfusion (Option.some.inj hb)
          rw [store_get?_set_ne σ1 a b _ hba]
          exact ihE σ entries σ1 entries' hres b s hb
      · rename_i items hget
        split at h
        · exact Except.noConfusion h
        · rename_i σ1 items' hres
          simp only [Except.ok.injEq, Prod.mk.injEq] at h
          obtain ⟨h1, h2⟩ := h
          subst h1
          have hba : a ≠ b := by
            intro heq
            rw [heq] at hget
            rw [hget] at hb
            exact HeapVal.noConfusion (Option.some.inj hb)
          rw [store_get?_set_ne σ1 a b _ hba]
          exact ihI σ items σ1 items' hres b s hb
      · rename_i s0 hget
        split at h
        · simp only [Except.ok.injEq, Prod.mk.injEq] at h
          obtain ⟨h1, h2⟩ := h
          subst h1
          exact hb
        · split at h
          · exact Except.noConfusion h
          · rename_i s1 hres
            simp only [Except.ok.injEq, Prod.mk.injEq] at h
            obtain ⟨h1, h2⟩ := h
            subst h1
            have hlen : b < σ.length := by
              by_contra hnot
              rw [List.get?_eq_none.mpr (Nat.le_of_not_lt hnot)] at hb
              exact Option.noConfusion hb
            rw [List.get?_append hlen]
            exact hb
      · simp only [Except.ok.injEq, Prod.mk.injEq] at h
        obtain ⟨h1, h2⟩ := h
        subst h1
        exact hb
      · simp only [Except.ok.injEq, Prod.mk.injEq] at h
        obtain ⟨h1, h2⟩ := h
        subst h1
        exact hb
      · simp only [Except.ok.injEq, Prod.mk.injEq] at h
        obtain ⟨h1, h2⟩ := h
        subst h1
        exact hb
      · simp only [Except.ok.injEq, Prod.mk.injEq] at h
        obtain ⟨h1, h2⟩ := h
        subst h1
        exact hb
    · intro σ l σ' l' h b s hb
      match l with
      | [] =>
        rw [injectHEntries] at h
        simp only [Except.ok.injEq, Prod.mk.injEq] at h
        obtain ⟨h1, h2⟩ := h
        subst h1
        exact hb
      | (k, r0) :: rest =>
        rw [injectHEntries] at h
        split at h
        · exact Except.noConfusion h
        · rename_i σ1 r1 hr
          split at h
          · exact Except.noConfusion h
          · rename_i σ2 rest' hrest
            simp only [Except.ok.injEq, Prod.mk.injEq] at h
            obtain ⟨h1, h2⟩ := h
            subst h1
            exact ihE σ1 rest σ2 rest' hrest b s (ihH σ r0 σ1 r1 hr b s hb)
    · intro σ l σ' l' h b s hb
      match l with
      | [] =>
        rw [injectHItems] at h
        simp only [Except.ok.injEq, Prod.mk.injEq] at h
        obtain ⟨h1, h2⟩ := h
        subst h1
        exact hb
      | r0 :: rest =>
        rw [injectHItems] at h
        split at h
        · exact Except.noConfusion h
        · rename_i σ1 r1 hr
          split at h
          · exact Except.noConfusion h
          · rename_i σ2 rest' hrest
            simp only [Except.ok.injEq, Prod.mk.injEq] at h
            obtain ⟨h1, h2⟩ := h
            subst h1
            exact ihI σ1 rest σ2 rest' hrest b s (ihH σ r0 σ1 r1 hr b s hb)

/-- C10: `inject_env_vars` mutates dicts and lists in place — whenever
the heap-level injector succeeds on an address holding a dict or a list,
the returned reference is that very address (the caller's tree object,
updated) — and only string leaves are replaced by new values: every
string object of the original heap is left byte-for-byte intact at its
address (resolved strings live at fresh addresses). -/
theorem c10_inject_in_place :
    ∀ (env : List Char → Option (List Char)) (sf fuel : Nat) (σ : Store)
      (a : Nat) (σ' : Store) (r : Nat),
      injectH env sf fuel σ a = .ok (σ', r) →
      ((∃ es, σ.get? a = some (.hdict es)) ∨
        (∃ ls, σ.get? a = some (.hlist ls)) → r = a) ∧
      (∀ (b : Nat) (s : List Char), σ.get? b = some (.hstr s) →
        σ'.get? b = some (.hstr s)) := by
  intro env sf fuel σ a σ' r h
  constructor
  · intro hda
    cases fuel with
    | zero => exact Except.noConfusion h
    | succ n =>
      rw [injectH] at h
      rcases hda with ⟨es, hget⟩ | ⟨ls, hget⟩
      · split at h
        · rename_i heq
          rw [hget] at heq
          exact Option.noConfusion heq
        · rename_i entries heq
          split at h
          · exact Except.noConfusion h
          · simp only [Except.ok.injEq, Prod.mk.injEq] at h
            exact h.2.symm
        · rename_i items heq
          rw [hget] at heq
          exact HeapVal.noConfusion (Option.some.inj heq)
        · rename_i s0 heq
          rw [hget] at heq
          exact HeapVal.noConfusion (Option.some.inj heq)
        · rename_i n0 heq
          rw [hget] at heq
          exact HeapVal.noConfusion (Option.some.inj heq)
        · rename_i x0 heq
          rw [hget] at heq
          exact HeapVal.noConfusion (Option.some.inj heq)
        · rename_i b0 heq
          rw [hget] at heq
          exact HeapVal.noConfusion (Option.some.inj heq)
        · rename_i heq
          rw [hget] at heq
          exact HeapVal.noConfusion (Option.some.inj heq)
      · split at h
        · rename_i heq
          rw [hget] at heq
          exact Option.noConfusion heq
        · rename_i entries heq
          rw [hget] at heq
          exact HeapVal.noConfusion (Option.some.inj heq)
        · rename_i items heq
          split at h
          · exact Except.noConfusion h
          · simp only [Except.ok.injEq, Prod.mk.injEq] at h
            exact h.2.symm
        · rename_i s0 heq
          rw [hget] at heq
          exact HeapVal.noConfusion (Option.some.inj heq)
        · rename_i n0 heq
          rw [hget] at heq
          exact HeapVal.noConfusion (Option.some.inj heq)
        · rename_i x0 heq
          rw [hget] at heq
          exact HeapVal.noConfusion (Option.some.inj heq)
        · rename_i b0 heq
          rw [hget] at heq
          exact HeapVal.noConfusion (Option.some.inj heq)
        · rename_i heq
          rw [hget] at heq
          exact HeapVal.noConfusion (Option.some.inj heq)
  · exact fun b s hb =>
      (injectH_preserves_strings env sf fuel).1 σ a σ' r h b s hb

/-- C10 witness: injecting the dict at address 1 of `heapBefore`
(holding `{"k": "{$A}"}` with `A=x`) returns address 1 itself, and the
original string object at address 0 still holds `"{$A}"` in the
resulting heap. -/
theorem c10_inject_in_place_witness :
    (1 : Nat) = 1 ∧
    heapAfter.get? 0 = some (HeapVal.hstr ['{', '$', 'A', '}']) := by
  have h := c10_inject_in_place sampleEnv 3 3 heapBefore 1 heapAfter 1 rfl
  exact ⟨h.1 (Or.inl ⟨[("k", 0)], rfl⟩), h.2 0 ['{', '$', 'A', '}'] rfl⟩

/-- C9 witness: the one-way-transition clause applied to the concrete
active flag and the `get_state` operation. -/
theorem c9_poison_pill_idempotent_witness :
    (applyPoisonPillOp PoisonPillOp.getStateOp ⟨true⟩).state = true :=
  c9_poison_pill_idempotent.2.2.2 PoisonPillOp.getStateOp ⟨true⟩ rfl

end Aineko
